import Mathlib

/-
Verification of the cylindrical-grid finite-difference operator module
(`pde/grids/operators/cylindrical.py`).

The kernels produced by `make_laplace`, `make_gradient` and `make_divergence`
iterate over the axial index `j` (sequentially or with a parallel loop) and,
inside each axial slice, perform a sequence of writes into the output array:
the inner radial cell, the interior radial cells, and the outer radial cell.
We embed each kernel as the list of (index, value) writes it performs for a
slice, executed in program order by `applyW`, with the slice loop executed by
`runOn`.  Field values are rationals; machine floating point is not modelled.

Boundary conditions are external to the module: the code consumes a
virtual-point evaluator for the outer radial boundary and a region evaluator
for the axial axis.  Both are carried as abstract function parameters.
-/

/- Scalar field data on the (radial, axial) grid: `arr i j` is the value at
radial index `i` and axial index `j`. -/
abbrev Arr2 := ℕ → ℕ → ℚ

/- Vector field data: `arr c i j` is component `c` (0 = radial, 1 = axial,
2 = azimuthal) at grid point `(i, j)`. -/
abbrev Arr3 := ℕ → ℕ → ℕ → ℚ

/- Tensor field data, indexed by two component axes and the grid point. -/
abbrev Arr4 := ℕ → ℕ → ℕ → ℕ → ℚ

/- Output index for scalar-valued kernels: `(i, j)`. -/
abbrev Idx2 := ℕ × ℕ

/- Output index for vector-valued kernels: `(component, i, j)`. -/
abbrev Idx3 := ℕ × ℕ × ℕ

/- Output index for tensor-valued kernels: `(component, component, i, j)`. -/
abbrev Idx4 := ℕ × ℕ × ℕ × ℕ

/-- Write the value `v` into output buffer `o` at key `k`. -/
def upd {α : Type} [DecidableEq α] (o : α → ℚ) (k : α) (v : ℚ) : α → ℚ :=
  fun x => if x = k then v else o x

/-- Execute a list of writes in order on the output buffer `o`. -/
def applyW {α : Type} [DecidableEq α] (ws : List (α × ℚ)) (o : α → ℚ) : α → ℚ :=
  ws.foldl (fun acc p => upd acc p.1 p.2) o

/-- Execute the writes of each loop iteration `j ∈ js`, in the order given by
the schedule `js`. -/
def runOn {α : Type} [DecidableEq α] (writes : ℕ → List (α × ℚ)) (js : List ℕ)
    (o : α → ℚ) : α → ℚ :=
  js.foldl (fun acc j => applyW (writes j) acc) o

/-- Boundary-condition data consumed by a scalar operator builder.  Modelled
from the spec: the boundary subsystem (external to the operator module)
provides `virtual_point(array, index) -> value`, the ghost value just outside
the outer radial face, and `region(array, index) -> (low, center, high)`, the
three axis-aligned neighbor values along the axial axis at an index, where the
center is the array's own value at that index and the low/high neighbors
resolve periodic wraparound or ghost-point substitution.  We carry the
virtual-point evaluator and the low/high parts of the region evaluator as
abstract functions and inline the region center as the array value.  Grid
geometry (`shape`, `discretization`) is flattened into the same record. -/
structure ScalarBcs where
  dimr : ℕ
  dimz : ℕ
  dr : ℚ
  dz : ℚ
  valueOuter : Arr2 → ℕ → ℕ → ℚ
  regionLo : Arr2 → ℕ → ℕ → ℚ
  regionHi : Arr2 → ℕ → ℕ → ℚ

/-- A vector-rank boundary-condition set additionally supports
`extract_component`, yielding the scalar set for one field component. -/
structure Boundaries extends ScalarBcs where
  extractComponent : ℕ → ScalarBcs

/-- Precomputed constant `dr_2 = 1 / discretization[0]**2` of `make_laplace`. -/
def ScalarBcs.dr_2 (b : ScalarBcs) : ℚ := 1 / b.dr ^ 2

/-- Precomputed constant `dz_2 = 1 / discretization[1]**2` of `make_laplace`. -/
def ScalarBcs.dz_2 (b : ScalarBcs) : ℚ := 1 / b.dz ^ 2

/-- Precomputed constant `scale_r = 1 / (2 * discretization[0])`. -/
def ScalarBcs.scale_r (b : ScalarBcs) : ℚ := 1 / (2 * b.dr)

/-- Precomputed constant `scale_z = 1 / (2 * discretization[1])`. -/
def ScalarBcs.scale_z (b : ScalarBcs) : ℚ := 1 / (2 * b.dz)

/-- Writes performed by one axial iteration `j` of the `laplace` kernel body:
first the inner radial cell `i = 0` (whose radial part reads `arr[i+1, j]`
before the `dim_r == 1` check), then — unless `dim_r == 1`, where the body
continues to the next `j` — the interior radial cells `i = 1 … dim_r-2` and
the outer radial cell `i = dim_r-1`, whose high radial neighbor is the
virtual point. -/
def laplace_writes (b : ScalarBcs) (arr : Arr2) (j : ℕ) : List (Idx2 × ℚ) :=
  ((0, j),
    2 * (arr 1 j - arr 0 j) * b.dr_2 +
      (b.regionLo arr 0 j - 2 * arr 0 j + b.regionHi arr 0 j) * b.dz_2) ::
  if b.dimr = 1 then []
  else
    (List.range' 1 (b.dimr - 2)).map (fun i =>
      ((i, j),
        (arr (i + 1) j - 2 * arr i j + arr (i - 1) j) * b.dr_2 +
          (arr (i + 1) j - arr (i - 1) j) / (2 * (i : ℚ) + 1) * b.dr_2 +
          (b.regionLo arr i j - 2 * arr i j + b.regionHi arr i j) * b.dz_2))
    ++ [((b.dimr - 1, j),
        (b.valueOuter arr (b.dimr - 1) j - 2 * arr (b.dimr - 1) j +
            arr (b.dimr - 1 - 1) j) * b.dr_2 +
          (b.valueOuter arr (b.dimr - 1) j - arr (b.dimr - 1 - 1) j) /
            (2 * ((b.dimr - 1 : ℕ) : ℚ) + 1) * b.dr_2 +
          (b.regionLo arr (b.dimr - 1) j - 2 * arr (b.dimr - 1) j +
            b.regionHi arr (b.dimr - 1) j) * b.dz_2)]

/-- The discretized laplace operator for a cylindrical grid: the kernel
returned by `make_laplace(bcs)`, applied to input `arr` and output buffer
`out`, iterating the axial index over `range(dim_z)`. -/
def make_laplace (b : ScalarBcs) (arr : Arr2) (out : Idx2 → ℚ) : Idx2 → ℚ :=
  runOn (laplace_writes b arr) (List.range b.dimz) out

/-- Writes performed by one axial iteration `j` of the `gradient` kernel body.
The inner radial cell writes the three output components; its radial
component reads `arr[1, i] - arr[0, i]` with `i = 0`, exactly as the source
does (the axial index `j` does not appear in that read).  Then the interior
cells and the outer cell follow; there is no `dim_r == 1` shortcut, so for a
single radial cell the outer write lands on `i = 0` again (and its
`arr[i - 1, j]` read wraps to `arr[dim_r - 1, j] = arr[0, j]`, which truncated
subtraction reproduces). -/
def gradient_writes (b : ScalarBcs) (arr : Arr2) (j : ℕ) : List (Idx3 × ℚ) :=
  [((0, 0, j), (arr 1 0 - arr 0 0) * b.scale_r),
   ((1, 0, j), (b.regionHi arr 0 j - b.regionLo arr 0 j) * b.scale_z),
   ((2, 0, j), 0)]
  ++ (List.range' 1 (b.dimr - 2)).flatMap (fun i =>
      [((0, i, j), (arr (i + 1) j - arr (i - 1) j) * b.scale_r),
       ((1, i, j), (b.regionHi arr i j - b.regionLo arr i j) * b.scale_z),
       ((2, i, j), 0)])
  ++ [((0, b.dimr - 1, j),
        (b.valueOuter arr (b.dimr - 1) j - arr (b.dimr - 1 - 1) j) * b.scale_r),
      ((1, b.dimr - 1, j),
        (b.regionHi arr (b.dimr - 1) j - b.regionLo arr (b.dimr - 1) j) *
          b.scale_z),
      ((2, b.dimr - 1, j), 0)]

/-- The discretized gradient operator for a cylindrical grid: the kernel
returned by `make_gradient(bcs)`. -/
def make_gradient (b : ScalarBcs) (arr : Arr2) (out : Idx3 → ℚ) : Idx3 → ℚ :=
  runOn (gradient_writes b arr) (List.range b.dimz) out

/-- Writes performed by one axial iteration `j` of the `divergence` kernel
body.  The input is a vector field; only the radial component `arr 0` and the
axial component `arr 1` are read.  The inner radial cell uses the specialized
one-sided form `(arr[0,1,j] + 3*arr[0,0,j]) * scale_r`; interior cells add the
metric term `arr[0,i,j] / ((i + 0.5) * dr)`; the outer cell substitutes the
virtual point for the high radial neighbor and accumulates `d_z + d_r` in that
order.  As in the gradient there is no `dim_r == 1` shortcut. -/
def divergence_writes (b : ScalarBcs) (arr : Arr3) (j : ℕ) : List (Idx2 × ℚ) :=
  ((0, j),
    (arr 0 1 j + 3 * arr 0 0 j) * b.scale_r +
      (b.regionHi (arr 1) 0 j - b.regionLo (arr 1) 0 j) * b.scale_z) ::
  ((List.range' 1 (b.dimr - 2)).map (fun i =>
    ((i, j),
      ((arr 0 (i + 1) j - arr 0 (i - 1) j) * b.scale_r +
          arr 0 i j / (((i : ℚ) + 1 / 2) * b.dr)) +
        (b.regionHi (arr 1) i j - b.regionLo (arr 1) i j) * b.scale_z))
  ++ [((b.dimr - 1, j),
      (b.regionHi (arr 1) (b.dimr - 1) j - b.regionLo (arr 1) (b.dimr - 1) j) *
          b.scale_z +
        ((b.valueOuter (arr 0) (b.dimr - 1) j - arr 0 (b.dimr - 1 - 1) j) *
            b.scale_r +
          arr 0 (b.dimr - 1) j / ((((b.dimr - 1 : ℕ) : ℚ) + 1 / 2) * b.dr)))])

/-- The discretized divergence operator for a cylindrical grid: the kernel
returned by `make_divergence(bcs)`. -/
def make_divergence (b : ScalarBcs) (arr : Arr3) (out : Idx2 → ℚ) : Idx2 → ℚ :=
  runOn (divergence_writes b arr) (List.range b.dimz) out

/-- The vector gradient operator: three independent scalar gradient kernels,
one per component boundary condition, writing into the slices `out[:, c]`. -/
def make_vector_gradient (b : Boundaries) (arr : Arr3) (out : Idx4 → ℚ) :
    Idx4 → ℚ :=
  let g₀ := make_gradient (b.extractComponent 0) (arr 0)
    (fun k => out (k.1, 0, k.2.1, k.2.2))
  let g₁ := make_gradient (b.extractComponent 1) (arr 1)
    (fun k => out (k.1, 1, k.2.1, k.2.2))
  let g₂ := make_gradient (b.extractComponent 2) (arr 2)
    (fun k => out (k.1, 2, k.2.1, k.2.2))
  fun k =>
    if k.2.1 = 0 then g₀ (k.1, k.2.2)
    else if k.2.1 = 1 then g₁ (k.1, k.2.2)
    else if k.2.1 = 2 then g₂ (k.1, k.2.2)
    else out k

/-- The vector laplace operator: componentwise scalar laplace kernels. -/
def make_vector_laplace (b : Boundaries) (arr : Arr3) (out : Idx3 → ℚ) :
    Idx3 → ℚ :=
  let l₀ := make_laplace (b.extractComponent 0) (arr 0) (fun k => out (0, k))
  let l₁ := make_laplace (b.extractComponent 1) (arr 1) (fun k => out (1, k))
  let l₂ := make_laplace (b.extractComponent 2) (arr 2) (fun k => out (2, k))
  fun k =>
    if k.1 = 0 then l₀ k.2
    else if k.1 = 1 then l₁ k.2
    else if k.1 = 2 then l₂ k.2
    else out k

/-- The tensor divergence operator: componentwise scalar divergence kernels. -/
def make_tensor_divergence (b : Boundaries) (arr : Arr4) (out : Idx3 → ℚ) :
    Idx3 → ℚ :=
  let d₀ := make_divergence (b.extractComponent 0) (arr 0) (fun k => out (0, k))
  let d₁ := make_divergence (b.extractComponent 1) (arr 1) (fun k => out (1, k))
  let d₂ := make_divergence (b.extractComponent 2) (arr 2) (fun k => out (2, k))
  fun k =>
    if k.1 = 0 then d₀ k.2
    else if k.1 = 1 then d₁ k.2
    else if k.1 = 2 then d₂ k.2
    else out k

/-- A kernel as returned by the operator dispatcher, tagged by its input and
output ranks. -/
inductive OpKernel where
  | scalarToScalar : (Arr2 → (Idx2 → ℚ) → (Idx2 → ℚ)) → OpKernel
  | scalarToVector : (Arr2 → (Idx3 → ℚ) → (Idx3 → ℚ)) → OpKernel
  | vectorToScalar : (Arr3 → (Idx2 → ℚ) → (Idx2 → ℚ)) → OpKernel
  | vectorToTensor : (Arr3 → (Idx4 → ℚ) → (Idx4 → ℚ)) → OpKernel
  | tensorToVector : (Arr4 → (Idx3 → ℚ) → (Idx3 → ℚ)) → OpKernel

/-- The operator dispatcher `make_operator(op, bcs)`: the name-to-builder
lookup of the module, raising `NotImplementedError` (here: `Except.error` with
the source's message) for any unknown name. -/
def make_operator (op : String) (bcs : Boundaries) : Except String OpKernel :=
  if op = "laplace" ∨ op = "laplacian" then
    .ok (.scalarToScalar (make_laplace bcs.toScalarBcs))
  else if op = "gradient" then
    .ok (.scalarToVector (make_gradient bcs.toScalarBcs))
  else if op = "divergence" then
    .ok (.vectorToScalar (make_divergence bcs.toScalarBcs))
  else if op = "vector_gradient" then
    .ok (.vectorToTensor (make_vector_gradient bcs))
  else if op = "tensor_divergence" then
    .ok (.tensorToVector (make_tensor_divergence bcs))
  else
    .error ("Operator `" ++ op ++ "` is not defined for cylindrical grids")

/-- Trivial evaluator fixture: both region neighbors and the virtual point
resolve to zero. -/
def zeroEval : Arr2 → ℕ → ℕ → ℚ := fun _ _ _ => 0

/-- Simple grid fixture with unit spacings and trivial boundary evaluators. -/
def simpleBcs (nr nz : ℕ) : ScalarBcs := ⟨nr, nz, 1, 1, zeroEval, zeroEval, zeroEval⟩

/-- The `parallel` flag computed once at kernel-construction time:
`dim_r * dim_z >= PARALLELIZATION_THRESHOLD_2D**2`, with the threshold kept
abstract since it is configured outside this module. -/
def parallel_enabled (b : ScalarBcs) (threshold : ℕ) : Prop :=
  threshold ^ 2 ≤ b.dimr * b.dimz

/-- Scalar input on a 2×2 grid whose inner-cell forward difference along the
radius differs between the two axial slices:
`u[1,1] - u[0,1] = -5` while `u[1,0] - u[0,0] = 1`. -/
def arrC1 : Arr2 := fun i j =>
  if i = 0 ∧ j = 1 then 5 else if i = 1 ∧ j = 0 then 1 else 0

/-- The zero scalar field. -/
def arrC2a : Arr2 := fun _ _ => 0

/-- A scalar field agreeing with the zero field on every index of a
`dim_r = 1`, `dim_z = 1` grid, and differing only at the out-of-bounds radial
index `i = 1`. -/
def arrC2b : Arr2 := fun i _ => if i = 0 then 0 else 1

/-- Grid with 3 radial cells of spacing `Δr = 1/2` (cell radii 1/4, 3/4, 5/4)
and 2 periodic axial cells: the virtual point of the outer Dirichlet
(value 0) condition evaluates to `-u[i, j]` at the boundary cell, and the
axial region neighbors of column `j` both resolve to column `1 - j`. -/
def bcsC5 : ScalarBcs :=
  ⟨3, 2, 1 / 2, 1, fun a i j => -a i j,
    fun a i j => a i (1 - j), fun a i j => a i (1 - j)⟩

/-- Vector field with radial component `[1, 2, 4]` (constant along the axial
direction) and vanishing axial and azimuthal components. -/
def arrC5 : Arr3 := fun c i j =>
  if c = 0 then (if i = 0 then 1 else if i = 1 then 2 else 4) else 0

/-- Vector-rank boundary-condition fixture for the dispatcher. -/
def bcsW : Boundaries := ⟨simpleBcs 2 1, fun _ => simpleBcs 2 1⟩

/-- Vector field whose azimuthal component is 1 everywhere. -/
def arrC10a : Arr3 := fun c _ _ => if c = 2 then 1 else 0

/-- Vector field whose azimuthal component is 2 everywhere, agreeing with
`arrC10a` on the radial and axial components. -/
def arrC10b : Arr3 := fun c _ _ => if c = 2 then 2 else 0

theorem upd_self {α : Type} [DecidableEq α] (o : α → ℚ) (k : α) (v : ℚ) :
    upd o k v k = v := by
  simp [upd]

theorem upd_ne {α : Type} [DecidableEq α] (o : α → ℚ) (k : α) (v : ℚ) {x : α}
    (h : x ≠ k) : upd o k v x = o x := by
  simp [upd, h]

theorem applyW_nil {α : Type} [DecidableEq α] (o : α → ℚ) :
    applyW ([] : List (α × ℚ)) o = o := rfl

theorem applyW_cons {α : Type} [DecidableEq α] (p : α × ℚ) (ws : List (α × ℚ))
    (o : α → ℚ) : applyW (p :: ws) o = applyW ws (upd o p.1 p.2) := rfl

/-- The result of a write sequence at key `k` depends on the initial buffer
only through its value at `k`. -/
theorem applyW_congr {α : Type} [DecidableEq α] (ws : List (α × ℚ))
    (o₁ o₂ : α → ℚ) (k : α) (h : o₁ k = o₂ k) :
    applyW ws o₁ k = applyW ws o₂ k := by
  induction ws generalizing o₁ o₂ with
  | nil => exact h
  | cons p ws ih =>
      rw [applyW_cons, applyW_cons]
      refine ih _ _ ?_
      by_cases hk : k = p.1
      · simp [upd, hk]
      · simp [upd, hk, h]

/-- A write sequence that never touches key `k` leaves the buffer value at `k`
unchanged. -/
theorem applyW_notin {α : Type} [DecidableEq α] (ws : List (α × ℚ))
    (o : α → ℚ) (k : α) (h : ∀ p ∈ ws, p.1 ≠ k) :
    applyW ws o k = o k := by
  induction ws generalizing o with
  | nil => rfl
  | cons p ws ih =>
      rw [applyW_cons, ih _ (fun q hq => h q (List.mem_cons_of_mem _ hq))]
      exact upd_ne o p.1 p.2 (Ne.symm (h p (List.mem_cons_self p ws)))

/-- If some write in the sequence hits key `k` and every write hitting `k`
writes the value `v`, the final buffer holds `v` at `k`. -/
theorem applyW_last {α : Type} [DecidableEq α] (ws : List (α × ℚ))
    (o : α → ℚ) (k : α) (v : ℚ) (h1 : ∀ p ∈ ws, p.1 = k → p.2 = v)
    (h2 : ∃ p ∈ ws, p.1 = k) : applyW ws o k = v := by
  induction ws generalizing o with
  | nil =>
      obtain ⟨p, hp, -⟩ := h2
      cases hp
  | cons q ws ih =>
      rw [applyW_cons]
      by_cases hw : ∃ p ∈ ws, p.1 = k
      · exact ih _ (fun p hp => h1 p (List.mem_cons_of_mem _ hp)) hw
      · have hq : q.1 = k := by
          obtain ⟨p, hp, hpk⟩ := h2
          rcases List.mem_cons.mp hp with h | h
          · rw [← h]; exact hpk
          · exact absurd ⟨p, h, hpk⟩ hw
        have hrest : ∀ p ∈ ws, p.1 ≠ k := fun p hp hpk => hw ⟨p, hp, hpk⟩
        rw [applyW_notin ws _ k hrest, hq, upd_self]
        exact h1 q (List.mem_cons_self q ws) hq

theorem runOn_nil {α : Type} [DecidableEq α] (writes : ℕ → List (α × ℚ))
    (o : α → ℚ) : runOn writes [] o = o := rfl

theorem runOn_cons {α : Type} [DecidableEq α] (writes : ℕ → List (α × ℚ))
    (j : ℕ) (js : List ℕ) (o : α → ℚ) :
    runOn writes (j :: js) o = runOn writes js (applyW (writes j) o) := rfl

/-- Iterations whose column differs from that of `k` leave the value at `k`
unchanged.  `col` assigns to each output key the loop iteration that owns it,
and `hw` states that iteration `j` writes only keys of column `j`. -/
theorem runOn_notin {α : Type} [DecidableEq α] (writes : ℕ → List (α × ℚ))
    (col : α → ℕ) (hw : ∀ j p, p ∈ writes j → col p.1 = j) (js : List ℕ)
    (o : α → ℚ) (k : α) (h : ∀ j ∈ js, j ≠ col k) :
    runOn writes js o k = o k := by
  induction js generalizing o with
  | nil => rfl
  | cons j js ih =>
      rw [runOn_cons, ih _ (fun x hx => h x (List.mem_cons_of_mem _ hx))]
      apply applyW_notin
      intro p hp hpk
      have hcol : col p.1 = j := hw j p hp
      rw [hpk] at hcol
      exact h j (List.mem_cons_self j js) hcol.symm

/-- On a duplicate-free schedule containing `j`, the final value at a key of
column `j` is exactly the value produced by iteration `j` run on the initial
buffer: iterations do not interfere. -/
theorem runOn_apply {α : Type} [DecidableEq α] (writes : ℕ → List (α × ℚ))
    (col : α → ℕ) (hw : ∀ j p, p ∈ writes j → col p.1 = j) (js : List ℕ)
    (hnd : js.Nodup) (j : ℕ) (hj : j ∈ js) (k : α) (hk : col k = j)
    (o : α → ℚ) : runOn writes js o k = applyW (writes j) o k := by
  induction js generalizing o with
  | nil => cases hj
  | cons j₀ js ih =>
      rw [runOn_cons]
      by_cases hjj : j = j₀
      · subst hjj
        have hj0 : j ∉ js := (List.nodup_cons.mp hnd).1
        apply runOn_notin writes col hw
        intro j' hj' hj'k
        rw [hk] at hj'k
        exact hj0 (hj'k ▸ hj')
      · have hmem : j ∈ js := by
          rcases List.mem_cons.mp hj with h | h
          · exact absurd h hjj
          · exact h
        rw [ih (List.nodup_cons.mp hnd).2 hmem _]
        apply applyW_congr
        apply applyW_notin
        intro p hp hpk
        have hcol : col p.1 = j₀ := hw j₀ p hp
        rw [hpk, hk] at hcol
        exact hjj hcol

/-- Loop iterations with disjoint write columns commute. -/
theorem applyW_comm {α : Type} [DecidableEq α] (writes : ℕ → List (α × ℚ))
    (col : α → ℕ) (hw : ∀ j p, p ∈ writes j → col p.1 = j) (o : α → ℚ)
    (j j' : ℕ) :
    applyW (writes j') (applyW (writes j) o) =
      applyW (writes j) (applyW (writes j') o) := by
  by_cases hjj : j = j'
  · rw [hjj]
  · funext k
    have hnotin : ∀ jx : ℕ, jx ≠ col k → ∀ p ∈ writes jx, p.1 ≠ k := by
      intro jx hjx p hp hpk
      have hcol : col p.1 = jx := hw jx p hp
      rw [hpk] at hcol
      exact hjx hcol.symm
    by_cases h1 : col k = j
    · have h2 : j' ≠ col k := fun e => hjj (e.trans h1).symm
      calc applyW (writes j') (applyW (writes j) o) k
          = applyW (writes j) o k := applyW_notin _ _ _ (hnotin j' h2)
        _ = applyW (writes j) (applyW (writes j') o) k :=
            (applyW_congr _ _ _ _ (applyW_notin _ _ _ (hnotin j' h2))).symm
    · by_cases h2 : col k = j'
      · have h3 : j ≠ col k := fun e => h1 e.symm
        calc applyW (writes j') (applyW (writes j) o) k
            = applyW (writes j') o k :=
              applyW_congr _ _ _ _ (applyW_notin _ _ _ (hnotin j h3))
          _ = applyW (writes j) (applyW (writes j') o) k :=
              (applyW_notin _ _ _ (hnotin j h3)).symm
      · have h3 : j ≠ col k := fun e => h1 e.symm
        have h4 : j' ≠ col k := fun e => h2 e.symm
        rw [applyW_notin _ _ _ (hnotin j' h4), applyW_notin _ _ _ (hnotin j h3),
          applyW_notin _ _ _ (hnotin j h3), applyW_notin _ _ _ (hnotin j' h4)]

/-- Any two schedules that are permutations of each other produce the same
output, given that each iteration writes only its own column. -/
theorem runOn_perm {α : Type} [DecidableEq α] (writes : ℕ → List (α × ℚ))
    (col : α → ℕ) (hw : ∀ j p, p ∈ writes j → col p.1 = j)
    {js₁ js₂ : List ℕ} (hp : js₁.Perm js₂) (o : α → ℚ) :
    runOn writes js₁ o = runOn writes js₂ o := by
  induction hp generalizing o with
  | nil => rfl
  | cons x _ ih => rw [runOn_cons, runOn_cons, ih]
  | swap x y l => rw [runOn_cons, runOn_cons, runOn_cons, runOn_cons,
      applyW_comm writes col hw]
  | trans _ _ ih₁ ih₂ => rw [ih₁, ih₂]

/-- Every write of laplace iteration `j` lands in axial column `j`. -/
theorem laplace_writes_col (b : ScalarBcs) (arr : Arr2) :
    ∀ j p, p ∈ laplace_writes b arr j → p.1.2 = j := by
  intro j p hp
  rw [laplace_writes] at hp
  rcases List.mem_cons.mp hp with rfl | hp
  · rfl
  · split at hp
    · cases hp
    · simp only [List.mem_append, List.mem_map, List.mem_singleton] at hp
      rcases hp with ⟨i, -, rfl⟩ | rfl <;> rfl

/-- Every write of gradient iteration `j` lands in axial column `j`. -/
theorem gradient_writes_col (b : ScalarBcs) (arr : Arr2) :
    ∀ j p, p ∈ gradient_writes b arr j → p.1.2.2 = j := by
  intro j p hp
  rw [gradient_writes] at hp
  simp only [List.mem_append, List.mem_cons, List.mem_flatMap,
    List.not_mem_nil, or_false] at hp
  rcases hp with ((rfl | rfl | rfl) | ⟨i, -, (rfl | rfl | rfl)⟩) |
    (rfl | rfl | rfl) <;> rfl

/-- Every write of divergence iteration `j` lands in axial column `j`. -/
theorem divergence_writes_col (b : ScalarBcs) (arr : Arr3) :
    ∀ j p, p ∈ divergence_writes b arr j → p.1.2 = j := by
  intro j p hp
  rw [divergence_writes] at hp
  rcases List.mem_cons.mp hp with rfl | hp
  · rfl
  · simp only [List.mem_append, List.mem_map, List.mem_singleton] at hp
    rcases hp with ⟨i, -, rfl⟩ | rfl <;> rfl

/-- The laplace output at an in-range axial index is produced by that axial
iteration alone. -/
theorem make_laplace_apply (b : ScalarBcs) (arr : Arr2) (out : Idx2 → ℚ)
    {i j : ℕ} (hj : j < b.dimz) :
    make_laplace b arr out (i, j) = applyW (laplace_writes b arr j) out (i, j) :=
  runOn_apply _ (fun k => k.2) (laplace_writes_col b arr) _
    (List.nodup_range _) j (List.mem_range.mpr hj) _ rfl out

/-- The gradient output at an in-range axial index is produced by that axial
iteration alone. -/
theorem make_gradient_apply (b : ScalarBcs) (arr : Arr2) (out : Idx3 → ℚ)
    {c i j : ℕ} (hj : j < b.dimz) :
    make_gradient b arr out (c, i, j) =
      applyW (gradient_writes b arr j) out (c, i, j) :=
  runOn_apply _ (fun k => k.2.2) (gradient_writes_col b arr) _
    (List.nodup_range _) j (List.mem_range.mpr hj) _ rfl out

/-- The divergence output at an in-range axial index is produced by that axial
iteration alone. -/
theorem make_divergence_apply (b : ScalarBcs) (arr : Arr3) (out : Idx2 → ℚ)
    {i j : ℕ} (hj : j < b.dimz) :
    make_divergence b arr out (i, j) =
      applyW (divergence_writes b arr j) out (i, j) :=
  runOn_apply _ (fun k => k.2) (divergence_writes_col b arr) _
    (List.nodup_range _) j (List.mem_range.mpr hj) _ rfl out

/-- Value of the laplace kernel at the inner radial cell when the grid has at
least two radial cells: the write of the `i = 0` program line survives. -/
theorem laplace_val_inner (b : ScalarBcs) (arr : Arr2) (out : Idx2 → ℚ)
    {j : ℕ} (hr : 2 ≤ b.dimr) (hj : j < b.dimz) :
    make_laplace b arr out (0, j) =
      2 * (arr 1 j - arr 0 j) * b.dr_2 +
        (b.regionLo arr 0 j - 2 * arr 0 j + b.regionHi arr 0 j) * b.dz_2 := by
  rw [make_laplace_apply b arr out hj]
  apply applyW_last
  · intro p hp hpk
    rw [laplace_writes] at hp
    rcases List.mem_cons.mp hp with rfl | hp
    · rfl
    · exfalso
      rw [if_neg (by omega : ¬b.dimr = 1)] at hp
      simp only [List.mem_append, List.mem_map, List.mem_singleton] at hp
      rcases hp with ⟨i, hi, rfl⟩ | rfl
      · simp only [Prod.mk.injEq] at hpk
        have := (List.mem_range'_1.mp hi).1
        omega
      · simp only [Prod.mk.injEq] at hpk
        omega
  · exact ⟨_, List.mem_cons_self _ _, rfl⟩

/-- Value of the laplace kernel at the single radial cell of a `dim_r == 1`
grid: the `i = 0` line executes (radial term included) and the `continue`
skips the rest of the slice. -/
theorem laplace_val_dim1 (b : ScalarBcs) (arr : Arr2) (out : Idx2 → ℚ)
    {j : ℕ} (hd : b.dimr = 1) (hj : j < b.dimz) :
    make_laplace b arr out (0, j) =
      2 * (arr 1 j - arr 0 j) * b.dr_2 +
        (b.regionLo arr 0 j - 2 * arr 0 j + b.regionHi arr 0 j) * b.dz_2 := by
  rw [make_laplace_apply b arr out hj]
  apply applyW_last
  · intro p hp hpk
    rw [laplace_writes, if_pos hd] at hp
    rcases List.mem_cons.mp hp with rfl | hp
    · rfl
    · cases hp
  · exact ⟨_, List.mem_cons_self _ _, rfl⟩

/-- Value of the laplace kernel at an interior radial cell. -/
theorem laplace_val_interior (b : ScalarBcs) (arr : Arr2) (out : Idx2 → ℚ)
    {i j : ℕ} (h1 : 1 ≤ i) (h2 : i ≤ b.dimr - 2) (hj : j < b.dimz) :
    make_laplace b arr out (i, j) =
      (arr (i + 1) j - 2 * arr i j + arr (i - 1) j) * b.dr_2 +
        (arr (i + 1) j - arr (i - 1) j) / (2 * (i : ℚ) + 1) * b.dr_2 +
        (b.regionLo arr i j - 2 * arr i j + b.regionHi arr i j) * b.dz_2 := by
  have hr3 : 3 ≤ b.dimr := by omega
  rw [make_laplace_apply b arr out hj]
  apply applyW_last
  · intro p hp hpk
    rw [laplace_writes] at hp
    rcases List.mem_cons.mp hp with rfl | hp
    · exfalso
      simp only [Prod.mk.injEq] at hpk
      omega
    · rw [if_neg (by omega : ¬b.dimr = 1)] at hp
      simp only [List.mem_append, List.mem_map, List.mem_singleton] at hp
      rcases hp with ⟨i', hi', rfl⟩ | rfl
      · simp only [Prod.mk.injEq] at hpk
        obtain ⟨rfl, -⟩ := hpk
        rfl
      · exfalso
        simp only [Prod.mk.injEq] at hpk
        omega
  · have hmem : ((i, j),
        (arr (i + 1) j - 2 * arr i j + arr (i - 1) j) * b.dr_2 +
          (arr (i + 1) j - arr (i - 1) j) / (2 * (i : ℚ) + 1) * b.dr_2 +
          (b.regionLo arr i j - 2 * arr i j + b.regionHi arr i j) * b.dz_2) ∈
          laplace_writes b arr j := by
      rw [laplace_writes]
      apply List.mem_cons_of_mem
      rw [if_neg (by omega : ¬b.dimr = 1)]
      exact List.mem_append_left _
        (List.mem_map.mpr ⟨i, List.mem_range'_1.mpr ⟨h1, by omega⟩, rfl⟩)
    exact ⟨_, hmem, rfl⟩

/-- Value of the gradient kernel's radial component at the inner radial cell
when the grid has at least two radial cells.  Note the value reads column 0
of the input, not column `j`: the embedding mirrors the source's
`arr[1, i] - arr[0, i]` with `i = 0`. -/
theorem gradient_val_inner_r (b : ScalarBcs) (arr : Arr2) (out : Idx3 → ℚ)
    {j : ℕ} (hr : 2 ≤ b.dimr) (hj : j < b.dimz) :
    make_gradient b arr out (0, 0, j) = (arr 1 0 - arr 0 0) * b.scale_r := by
  rw [make_gradient_apply b arr out hj]
  apply applyW_last
  · intro p hp hpk
    rw [gradient_writes] at hp
    simp only [List.mem_append, List.mem_cons, List.mem_flatMap,
      List.not_mem_nil, or_false] at hp
    rcases hp with ((rfl | rfl | rfl) | ⟨i, hi, (rfl | rfl | rfl)⟩) |
      (rfl | rfl | rfl)
    · rfl
    · simp at hpk
    · simp at hpk
    · simp only [Prod.mk.injEq] at hpk
      have := (List.mem_range'_1.mp hi).1
      omega
    · simp at hpk
    · simp at hpk
    · simp only [Prod.mk.injEq] at hpk
      omega
    · simp at hpk
    · simp at hpk
  · exact ⟨_, List.mem_append_left _
      (List.mem_append_left _ (List.mem_cons_self _ _)), rfl⟩

/-- Value of the divergence kernel at the inner radial cell when the grid has
at least two radial cells: the specialized flux-balance form plus the axial
central difference, with no metric term. -/
theorem divergence_val_inner (b : ScalarBcs) (arr : Arr3) (out : Idx2 → ℚ)
    {j : ℕ} (hr : 2 ≤ b.dimr) (hj : j < b.dimz) :
    make_divergence b arr out (0, j) =
      (arr 0 1 j + 3 * arr 0 0 j) * b.scale_r +
        (b.regionHi (arr 1) 0 j - b.regionLo (arr 1) 0 j) * b.scale_z := by
  rw [make_divergence_apply b arr out hj]
  apply applyW_last
  · intro p hp hpk
    rw [divergence_writes] at hp
    rcases List.mem_cons.mp hp with rfl | hp
    · rfl
    · exfalso
      simp only [List.mem_append, List.mem_map, List.mem_singleton] at hp
      rcases hp with ⟨i, hi, rfl⟩ | rfl
      · simp only [Prod.mk.injEq] at hpk
        have := (List.mem_range'_1.mp hi).1
        omega
      · simp only [Prod.mk.injEq] at hpk
        omega
  · exact ⟨_, List.mem_cons_self _ _, rfl⟩

/-- Value of the divergence kernel at an interior radial cell. -/
theorem divergence_val_interior (b : ScalarBcs) (arr : Arr3) (out : Idx2 → ℚ)
    {i j : ℕ} (h1 : 1 ≤ i) (h2 : i ≤ b.dimr - 2) (hj : j < b.dimz) :
    make_divergence b arr out (i, j) =
      ((arr 0 (i + 1) j - arr 0 (i - 1) j) * b.scale_r +
          arr 0 i j / (((i : ℚ) + 1 / 2) * b.dr)) +
        (b.regionHi (arr 1) i j - b.regionLo (arr 1) i j) * b.scale_z := by
  rw [make_divergence_apply b arr out hj]
  apply applyW_last
  · intro p hp hpk
    rw [divergence_writes] at hp
    rcases List.mem_cons.mp hp with rfl | hp
    · exfalso
      simp only [Prod.mk.injEq] at hpk
      omega
    · simp only [List.mem_append, List.mem_map, List.mem_singleton] at hp
      rcases hp with ⟨i', hi', rfl⟩ | rfl
      · simp only [Prod.mk.injEq] at hpk
        obtain ⟨rfl, -⟩ := hpk
        rfl
      · exfalso
        simp only [Prod.mk.injEq] at hpk
        omega
  · refine ⟨_, List.mem_cons_of_mem _ (List.mem_append_left _
      (List.mem_map.mpr ⟨i, List.mem_range'_1.mpr ⟨h1, by omega⟩, rfl⟩)), rfl⟩

/-- Value of the divergence kernel at the outer radial cell when the grid has
at least two radial cells: the virtual point replaces the high radial
neighbor, and the slice accumulates `d_z + d_r` in that order. -/
theorem divergence_val_outer (b : ScalarBcs) (arr : Arr3) (out : Idx2 → ℚ)
    {j : ℕ} (hr : 2 ≤ b.dimr) (hj : j < b.dimz) :
    make_divergence b arr out (b.dimr - 1, j) =
      (b.regionHi (arr 1) (b.dimr - 1) j - b.regionLo (arr 1) (b.dimr - 1) j) *
          b.scale_z +
        ((b.valueOuter (arr 0) (b.dimr - 1) j - arr 0 (b.dimr - 1 - 1) j) *
            b.scale_r +
          arr 0 (b.dimr - 1) j / ((((b.dimr - 1 : ℕ) : ℚ) + 1 / 2) * b.dr)) := by
  rw [make_divergence_apply b arr out hj]
  apply applyW_last
  · intro p hp hpk
    rw [divergence_writes] at hp
    rcases List.mem_cons.mp hp with rfl | hp
    · exfalso
      simp only [Prod.mk.injEq] at hpk
      omega
    · simp only [List.mem_append, List.mem_map, List.mem_singleton] at hp
      rcases hp with ⟨i', hi', rfl⟩ | rfl
      · exfalso
        simp only [Prod.mk.injEq] at hpk
        have := (List.mem_range'_1.mp hi').2
        omega
      · rfl
  · exact ⟨_, List.mem_cons_of_mem _
      (List.mem_append_right _ (List.mem_singleton.mpr rfl)), rfl⟩

/-- C6: for every scalar input `u` on a grid with `dim_r ≥ 2` and every axial
index `j`, the laplace kernel writes at the innermost radial cell
`out[0, j] = 2*(u[1,j] - u[0,j])/Δr² + (z_l - 2*u[0,j] + z_h)/Δz²`, the
collapsed reflected-neighbor form, independent of the user-supplied outer
boundary condition (the virtual-point evaluator does not occur). -/
theorem laplace_inner_reflection (b : ScalarBcs) (arr : Arr2) (out : Idx2 → ℚ)
    (j : ℕ) (hr : 2 ≤ b.dimr) (hj : j < b.dimz) :
    make_laplace b arr out (0, j) =
      2 * (arr 1 j - arr 0 j) / b.dr ^ 2 +
        (b.regionLo arr 0 j - 2 * arr 0 j + b.regionHi arr 0 j) / b.dz ^ 2 := by
  rw [laplace_val_inner b arr out hr hj, ScalarBcs.dr_2, ScalarBcs.dz_2,
    mul_one_div, mul_one_div]

/-- Witness for C6 at a concrete grid and input. -/
theorem laplace_inner_reflection_witness :
    2 ≤ (simpleBcs 2 1).dimr ∧ 0 < (simpleBcs 2 1).dimz ∧
      make_laplace (simpleBcs 2 1) arrC2b (fun _ => 0) (0, 0) =
        2 * (arrC2b 1 0 - arrC2b 0 0) / (simpleBcs 2 1).dr ^ 2 +
          ((simpleBcs 2 1).regionLo arrC2b 0 0 - 2 * arrC2b 0 0 +
            (simpleBcs 2 1).regionHi arrC2b 0 0) / (simpleBcs 2 1).dz ^ 2 :=
  ⟨by norm_num [simpleBcs], by norm_num [simpleBcs],
    laplace_inner_reflection (simpleBcs 2 1) arrC2b _ 0
      (by norm_num [simpleBcs]) (by norm_num [simpleBcs])⟩

/-- C3: for every scalar input, every interior radial index
`1 ≤ i ≤ dim_r - 2` and every axial index `j`, the laplace kernel computes
the second-order central stencil with the `(2i+1)` metric denominator plus
the axial region term. -/
theorem laplace_interior_stencil (b : ScalarBcs) (arr : Arr2) (out : Idx2 → ℚ)
    (i j : ℕ) (h1 : 1 ≤ i) (h2 : i ≤ b.dimr - 2) (hj : j < b.dimz) :
    make_laplace b arr out (i, j) =
      (arr (i + 1) j - 2 * arr i j + arr (i - 1) j) / b.dr ^ 2 +
        (arr (i + 1) j - arr (i - 1) j) / ((2 * (i : ℚ) + 1) * b.dr ^ 2) +
        (b.regionLo arr i j - 2 * arr i j + b.regionHi arr i j) / b.dz ^ 2 := by
  rw [laplace_val_interior b arr out h1 h2 hj, ScalarBcs.dr_2, ScalarBcs.dz_2,
    mul_one_div, mul_one_div, mul_one_div, div_div]

/-- Witness for C3 at a concrete grid and input. -/
theorem laplace_interior_stencil_witness :
    1 ≤ 1 ∧ 1 ≤ (simpleBcs 3 1).dimr - 2 ∧ 0 < (simpleBcs 3 1).dimz ∧
      make_laplace (simpleBcs 3 1) arrC2b (fun _ => 0) (1, 0) =
        (arrC2b 2 0 - 2 * arrC2b 1 0 + arrC2b 0 0) / (simpleBcs 3 1).dr ^ 2 +
          (arrC2b 2 0 - arrC2b 0 0) /
            ((2 * ((1 : ℕ) : ℚ) + 1) * (simpleBcs 3 1).dr ^ 2) +
          ((simpleBcs 3 1).regionLo arrC2b 1 0 - 2 * arrC2b 1 0 +
            (simpleBcs 3 1).regionHi arrC2b 1 0) / (simpleBcs 3 1).dz ^ 2 :=
  ⟨le_refl 1, by norm_num [simpleBcs], by norm_num [simpleBcs],
    laplace_interior_stencil (simpleBcs 3 1) arrC2b _ 1 0 (le_refl 1)
      (by norm_num [simpleBcs]) (by norm_num [simpleBcs])⟩

/-- C4: for every vector input on a grid with `dim_r ≥ 2` and every axial
index `j`, the divergence kernel's value at the innermost radial cell is the
specialized flux-balance radial form `(u_r[1,j] + 3*u_r[0,j]) / (2Δr)` — with
no `1/r` metric correction — plus the axial central difference of the axial
component. -/
theorem divergence_inner_flux_form (b : ScalarBcs) (arr : Arr3)
    (out : Idx2 → ℚ) (j : ℕ) (hr : 2 ≤ b.dimr) (hj : j < b.dimz) :
    make_divergence b arr out (0, j) =
      (arr 0 1 j + 3 * arr 0 0 j) / (2 * b.dr) +
        (b.regionHi (arr 1) 0 j - b.regionLo (arr 1) 0 j) / (2 * b.dz) := by
  rw [divergence_val_inner b arr out hr hj, ScalarBcs.scale_r,
    ScalarBcs.scale_z, mul_one_div, mul_one_div]

/-- Witness for C4 at a concrete grid and input. -/
theorem divergence_inner_flux_form_witness :
    2 ≤ (simpleBcs 2 1).dimr ∧ 0 < (simpleBcs 2 1).dimz ∧
      make_divergence (simpleBcs 2 1) arrC10a (fun _ => 0) (0, 0) =
        (arrC10a 0 1 0 + 3 * arrC10a 0 0 0) / (2 * (simpleBcs 2 1).dr) +
          ((simpleBcs 2 1).regionHi (arrC10a 1) 0 0 -
            (simpleBcs 2 1).regionLo (arrC10a 1) 0 0) / (2 * (simpleBcs 2 1).dz) :=
  ⟨by norm_num [simpleBcs], by norm_num [simpleBcs],
    divergence_inner_flux_form (simpleBcs 2 1) arrC10a _ 0
      (by norm_num [simpleBcs]) (by norm_num [simpleBcs])⟩

/-- C7: the azimuthal (third) component of the gradient kernel's output is
exactly `0` at every grid point, for every input and every grid. -/
theorem gradient_azimuthal_zero (b : ScalarBcs) (arr : Arr2) (out : Idx3 → ℚ)
    (i j : ℕ) (hi : i < b.dimr) (hj : j < b.dimz) :
    make_gradient b arr out (2, i, j) = 0 := by
  rw [make_gradient_apply b arr out hj]
  apply applyW_last
  · intro p hp hpk
    rw [gradient_writes] at hp
    simp only [List.mem_append, List.mem_cons, List.mem_flatMap,
      List.not_mem_nil, or_false] at hp
    rcases hp with ((rfl | rfl | rfl) | ⟨i', hi', (rfl | rfl | rfl)⟩) |
      (rfl | rfl | rfl)
    · simp at hpk
    · simp at hpk
    · rfl
    · simp at hpk
    · simp at hpk
    · rfl
    · simp at hpk
    · simp at hpk
    · rfl
  · by_cases h0 : i = 0
    · subst h0
      exact ⟨_, List.mem_append_left _ (List.mem_append_left _
        (List.mem_cons_of_mem _ (List.mem_cons_of_mem _
          (List.mem_cons_self _ _)))), rfl⟩
    · by_cases hlast : i = b.dimr - 1
      · subst hlast
        exact ⟨_, List.mem_append_right _
          (List.mem_cons_of_mem _ (List.mem_cons_of_mem _
            (List.mem_cons_self _ _))), rfl⟩
      · have hmem : ((2, i, j), (0 : ℚ)) ∈ gradient_writes b arr j := by
          rw [gradient_writes]
          apply List.mem_append_left
          apply List.mem_append_right
          exact List.mem_flatMap.mpr
            ⟨i, List.mem_range'_1.mpr ⟨by omega, by omega⟩,
              List.mem_cons_of_mem _ (List.mem_cons_of_mem _
                (List.mem_cons_self _ _))⟩
        exact ⟨_, hmem, rfl⟩

/-- Witness for C7 at a concrete grid, input and grid point. -/
theorem gradient_azimuthal_zero_witness :
    0 < (simpleBcs 2 2).dimr ∧ 1 < (simpleBcs 2 2).dimz ∧
      make_gradient (simpleBcs 2 2) arrC1 (fun _ => 0) (2, 0, 1) = 0 :=
  ⟨by norm_num [simpleBcs], by norm_num [simpleBcs],
    gradient_azimuthal_zero (simpleBcs 2 2) arrC1 _ 0 1
      (by norm_num [simpleBcs]) (by norm_num [simpleBcs])⟩

/-- C9: when the parallel strategy is selected at construction time, running
the laplace or divergence kernel body under any schedule of the axial
iterations (any permutation of `range(dim_z)`, as a parallel loop may
realize) produces exactly the output of the sequential in-order run: the
axial iterations neither read nor write any other axial slice's output. -/
theorem parallel_sequential_equiv (b : ScalarBcs) (threshold : ℕ)
    (arrS : Arr2) (arrV : Arr3) (outS outD : Idx2 → ℚ) (js : List ℕ)
    (hpar : parallel_enabled b threshold)
    (hperm : js.Perm (List.range b.dimz)) :
    runOn (laplace_writes b arrS) js outS = make_laplace b arrS outS ∧
      runOn (divergence_writes b arrV) js outD = make_divergence b arrV outD :=
  ⟨runOn_perm _ (fun k => k.2) (laplace_writes_col b arrS) hperm outS,
    runOn_perm _ (fun k => k.2) (divergence_writes_col b arrV) hperm outD⟩

/-- Witness for C9: the reversed schedule on a 1×2 grid above threshold 1. -/
theorem parallel_sequential_equiv_witness :
    parallel_enabled (simpleBcs 1 2) 1 ∧
      ([1, 0] : List ℕ).Perm (List.range (simpleBcs 1 2).dimz) ∧
      (runOn (laplace_writes (simpleBcs 1 2) arrC2b) [1, 0] (fun _ => 0) =
          make_laplace (simpleBcs 1 2) arrC2b (fun _ => 0) ∧
        runOn (divergence_writes (simpleBcs 1 2) arrC10a) [1, 0] (fun _ => 0) =
          make_divergence (simpleBcs 1 2) arrC10a (fun _ => 0)) :=
  ⟨by norm_num [parallel_enabled, simpleBcs],
    by simpa using List.Perm.swap 0 1 [],
    parallel_sequential_equiv (simpleBcs 1 2) 1 arrC2b arrC10a _ _ [1, 0]
      (by norm_num [parallel_enabled, simpleBcs])
      (by simpa using List.Perm.swap 0 1 [])⟩

/-- C10: the divergence kernel never reads the azimuthal input component:
two vector inputs agreeing on the radial and axial components produce
identical outputs. -/
theorem divergence_ignores_azimuthal (b : ScalarBcs) (a a' : Arr3)
    (out : Idx2 → ℚ) (h0 : ∀ i j, a 0 i j = a' 0 i j)
    (h1 : ∀ i j, a 1 i j = a' 1 i j) :
    make_divergence b a out = make_divergence b a' out := by
  have e0 : a 0 = a' 0 := funext fun i => funext fun j => h0 i j
  have e1 : a 1 = a' 1 := funext fun i => funext fun j => h1 i j
  have hw : divergence_writes b a = divergence_writes b a' := by
    funext j
    rw [divergence_writes, divergence_writes, e0, e1]
  rw [make_divergence, make_divergence, hw]

/-- Witness for C10: two fields differing only in the azimuthal component. -/
theorem divergence_ignores_azimuthal_witness :
    (∀ i j, arrC10a 0 i j = arrC10b 0 i j) ∧
      (∀ i j, arrC10a 1 i j = arrC10b 1 i j) ∧
      make_divergence (simpleBcs 2 2) arrC10a (fun _ => 0) =
        make_divergence (simpleBcs 2 2) arrC10b (fun _ => 0) :=
  ⟨fun _ _ => rfl, fun _ _ => rfl,
    divergence_ignores_azimuthal (simpleBcs 2 2) arrC10a arrC10b _
      (fun _ _ => rfl) (fun _ _ => rfl)⟩

/-- C8: `make_operator` maps `laplace`/`laplacian` to the laplace builder,
`gradient`, `divergence`, `vector_gradient` and `tensor_divergence` to their
builders, and fails with the unsupported-operator error for every other name
— in particular for `vector_laplace`, although `make_vector_laplace`
exists. -/
theorem make_operator_dispatch (bcs : Boundaries) (op : String)
    (hop : op ∉ ["laplace", "laplacian", "gradient", "divergence",
      "vector_gradient", "tensor_divergence"]) :
    make_operator "laplace" bcs =
        .ok (.scalarToScalar (make_laplace bcs.toScalarBcs)) ∧
      make_operator "laplacian" bcs =
        .ok (.scalarToScalar (make_laplace bcs.toScalarBcs)) ∧
      make_operator "gradient" bcs =
        .ok (.scalarToVector (make_gradient bcs.toScalarBcs)) ∧
      make_operator "divergence" bcs =
        .ok (.vectorToScalar (make_divergence bcs.toScalarBcs)) ∧
      make_operator "vector_gradient" bcs =
        .ok (.vectorToTensor (make_vector_gradient bcs)) ∧
      make_operator "tensor_divergence" bcs =
        .ok (.tensorToVector (make_tensor_divergence bcs)) ∧
      make_operator op bcs =
        .error ("Operator `" ++ op ++ "` is not defined for cylindrical grids")
    := by
  simp only [List.mem_cons, List.not_mem_nil, or_false, not_or] at hop
  obtain ⟨n1, n2, n3, n4, n5, n6⟩ := hop
  refine ⟨rfl, rfl, rfl, rfl, rfl, rfl, ?_⟩
  rw [make_operator, if_neg (by simp [n1, n2]), if_neg n3, if_neg n4,
    if_neg n5, if_neg n6]

/-- Witness for C8: the dispatcher rejects `vector_laplace`. -/
theorem make_operator_dispatch_witness :
    ("vector_laplace" ∉ ["laplace", "laplacian", "gradient", "divergence",
        "vector_gradient", "tensor_divergence"]) ∧
      (make_operator "laplace" bcsW =
          .ok (.scalarToScalar (make_laplace bcsW.toScalarBcs)) ∧
        make_operator "laplacian" bcsW =
          .ok (.scalarToScalar (make_laplace bcsW.toScalarBcs)) ∧
        make_operator "gradient" bcsW =
          .ok (.scalarToVector (make_gradient bcsW.toScalarBcs)) ∧
        make_operator "divergence" bcsW =
          .ok (.vectorToScalar (make_divergence bcsW.toScalarBcs)) ∧
        make_operator "vector_gradient" bcsW =
          .ok (.vectorToTensor (make_vector_gradient bcsW)) ∧
        make_operator "tensor_divergence" bcsW =
          .ok (.tensorToVector (make_tensor_divergence bcsW)) ∧
        make_operator "vector_laplace" bcsW =
          .error ("Operator `" ++ "vector_laplace" ++
            "` is not defined for cylindrical grids")) :=
  ⟨by simp, make_operator_dispatch bcsW "vector_laplace" (by simp)⟩

/-- C1 (bug evidence): on a 2×2 unit grid with the input `arrC1`, the
gradient kernel's inner-cell radial output in axial slice `j = 1` is
`(u[1,0] - u[0,0]) / (2Δr) = 1/2` — the source reads `arr[1, i]`, `arr[0, i]`
with `i = 0` — whereas the per-slice forward difference the claim states,
`(u[1,1] - u[0,1]) / (2Δr)`, equals `-5/2`. -/
theorem gradient_inner_reads_fixed_column :
    make_gradient (simpleBcs 2 2) arrC1 (fun _ => 0) (0, 0, 1) = 1 / 2 ∧
      (arrC1 1 1 - arrC1 0 1) * (simpleBcs 2 2).scale_r = -5 / 2 := by
  constructor
  · rw [gradient_val_inner_r (simpleBcs 2 2) arrC1 _
      (by norm_num [simpleBcs]) (by norm_num [simpleBcs])]
    norm_num [arrC1, simpleBcs, ScalarBcs.scale_r]
  · norm_num [arrC1, simpleBcs, ScalarBcs.scale_r]

/-- C2 (bug evidence): on a `dim_r = 1`, `dim_z = 1` grid the laplace
kernel's single output value changes when only the out-of-bounds radial
neighbor `arr[1, j]` changes — `arrC2a` and `arrC2b` agree at the only valid
grid point `(0, 0)` — so the `i = 0` radial term is evaluated (reading
`arr[1, j]`) before the `dim_r == 1` continue, rather than the radial
contribution being skipped. -/
theorem laplace_dim1_reads_radial_neighbor :
    arrC2a 0 0 = arrC2b 0 0 ∧
      make_laplace (simpleBcs 1 1) arrC2a (fun _ => 0) (0, 0) = 0 ∧
      make_laplace (simpleBcs 1 1) arrC2b (fun _ => 0) (0, 0) = 2 := by
  refine ⟨rfl, ?_, ?_⟩
  · rw [laplace_val_dim1 (simpleBcs 1 1) arrC2a _ rfl (by norm_num [simpleBcs])]
    norm_num [arrC2a, simpleBcs, ScalarBcs.dr_2, ScalarBcs.dz_2, zeroEval]
  · rw [laplace_val_dim1 (simpleBcs 1 1) arrC2b _ rfl (by norm_num [simpleBcs])]
    norm_num [arrC2b, simpleBcs, ScalarBcs.dr_2, ScalarBcs.dz_2, zeroEval]

/-- C5: on the 3-cell grid with `Δr = 1/2`, vector input `[[1,2,4],0,0]` and
the outer Dirichlet (value 0) condition whose virtual point evaluates to
`-u[2,j]`, the divergence kernel returns `[5, 17/3, -6 + 4/r2]` with
`r2 = 5/4` in both axial slices. -/
theorem divergence_concrete_scenario :
    (make_divergence bcsC5 arrC5 (fun _ => 0) (0, 0) = 5 ∧
      make_divergence bcsC5 arrC5 (fun _ => 0) (1, 0) = 17 / 3 ∧
      make_divergence bcsC5 arrC5 (fun _ => 0) (2, 0) = -6 + 4 / (5 / 4)) ∧
    (make_divergence bcsC5 arrC5 (fun _ => 0) (0, 1) = 5 ∧
      make_divergence bcsC5 arrC5 (fun _ => 0) (1, 1) = 17 / 3 ∧
      make_divergence bcsC5 arrC5 (fun _ => 0) (2, 1) = -6 + 4 / (5 / 4)) := by
  have hr : 2 ≤ bcsC5.dimr := by norm_num [bcsC5]
  have hj0 : 0 < bcsC5.dimz := by norm_num [bcsC5]
  have hj1 : 1 < bcsC5.dimz := by norm_num [bcsC5]
  have ho0 := divergence_val_outer bcsC5 arrC5 (fun _ => 0) hr hj0
  have ho1 := divergence_val_outer bcsC5 arrC5 (fun _ => 0) hr hj1
  rw [show bcsC5.dimr - 1 = 2 from rfl] at ho0 ho1
  refine ⟨⟨?_, ?_, ?_⟩, ?_, ?_, ?_⟩
  · rw [divergence_val_inner bcsC5 arrC5 _ hr hj0]
    norm_num [arrC5, bcsC5, ScalarBcs.scale_r, ScalarBcs.scale_z]
  · rw [divergence_val_interior bcsC5 arrC5 _ (le_refl 1)
      (by norm_num [bcsC5]) hj0]
    norm_num [arrC5, bcsC5, ScalarBcs.scale_r, ScalarBcs.scale_z]
  · rw [ho0]
    norm_num [arrC5, bcsC5, ScalarBcs.scale_r, ScalarBcs.scale_z]
  · rw [divergence_val_inner bcsC5 arrC5 _ hr hj1]
    norm_num [arrC5, bcsC5, ScalarBcs.scale_r, ScalarBcs.scale_z]
  · rw [divergence_val_interior bcsC5 arrC5 _ (le_refl 1)
      (by norm_num [bcsC5]) hj1]
    norm_num [arrC5, bcsC5, ScalarBcs.scale_r, ScalarBcs.scale_z]
  · rw [ho1]
    norm_num [arrC5, bcsC5, ScalarBcs.scale_r, ScalarBcs.scale_z]
